import Mathlib

/-!
Verification of the documentation-generator pipeline in
`scripts/generate-agriculture-docs.py` (class `AgricultureDocGenerator`).

Texts are modelled as `List Char`.  The Python functions
`validate_openapi_compliance`, `extract_metadata`, `generate_markdown_docs`,
`generate_openapi_spec`, `load_template` and the `generate` driver are
translated below.  The four `re.findall` scans of `extract_metadata` are
modelled by specialised backtracking matchers that follow Python's regex
semantics for the concrete patterns appearing in the source
(greedy `\s+`, lazy `.+?`, literal alternation, left-to-right
non-overlapping scanning).
-/

set_option maxRecDepth 100000

namespace AgriDocs

/-- Texts are lists of characters. -/
abbrev Str := List Char

/-- Python `\s` (ASCII range): space, tab, newline, carriage return,
vertical tab, form feed. -/
def isPySpace (c : Char) : Bool :=
  c == ' ' || c == '\t' || c == '\n' || c == '\r' || c == '\x0b' || c == '\x0c'

/-- Python `\d` (ASCII range): decimal digits. -/
def isPyDigit (c : Char) : Bool :=
  '0' ≤ c && c ≤ '9'

/-- Character class `[A-Z_]` of the error-code pattern. -/
def isUpperUnd (c : Char) : Bool :=
  ('A' ≤ c && c ≤ 'Z') || c == '_'

/-- Python's substring containment `pat in s`. -/
def containsSub (pat : Str) : Str → Bool
  | [] => pat.isEmpty
  | c :: rest => pat.isPrefixOf (c :: rest) || containsSub pat rest

/-! ### The validator (source lines 48-83) -/

/-- The fixed `required_sections` list (source lines 53-60). -/
def requiredSections : List Str :=
  ["System Overview".data, "Authentication Methods".data, "Endpoints".data,
   "Data Models".data, "Error Handling".data, "Rate Limiting".data]

/-- Header substring `f"## {section}"` checked by the validator (line 63). -/
def sectionHeader (s : Str) : Str := "## ".data ++ s

/-- Violation message `f"Missing required section: {section}"` (line 64). -/
def missingSectionMsg (s : Str) : Str := "Missing required section: ".data ++ s

/-- The fixed `http_methods` list (source line 67). -/
def httpMethods : List Str :=
  ["GET".data, "POST".data, "PUT".data, "DELETE".data,
   "PATCH".data, "HEAD".data, "OPTIONS".data]

/-- Pattern `f"```http\n{method} "` (source line 68). -/
def methodPattern (m : Str) : Str := "```http\n".data ++ m ++ " ".data

/-- Violation message of source line 77. -/
def noHttpMsg : Str := "No HTTP method examples found in endpoints section".data

/-- Violation message of source line 81. -/
def noJsonMsg : Str := "No JSON response examples found".data

/-- The `method_found` loop of source lines 70-74. -/
def methodFound (content : Str) : Bool :=
  httpMethods.any fun m => containsSub (methodPattern m) content

/-- `validate_openapi_compliance` (source lines 48-83): the missing-section
messages in required-list order, then at most one HTTP-method message, then
at most one JSON message. -/
def validate_openapi_compliance (content : Str) : List Str :=
  ((requiredSections.filter fun s => !containsSub (sectionHeader s) content).map
      missingSectionMsg)
    ++ (if methodFound content then [] else [noHttpMsg])
    ++ (if containsSub "```json".data content then [] else [noJsonMsg])

/-! ### Regex matchers for `extract_metadata` (source lines 85-114)

Each matcher attempts a match anchored at the current position and returns
the capture group together with the remainder of the text after the whole
match.  Backtracking priorities follow Python: greedy pieces prefer the
longest expansion, lazy pieces the shortest. -/

/-- Tail of `r'##\s+(.+?)\n'` after the whitespace: `(.+?)\n`.  Since `.`
never matches a newline, the lazy capture is exactly the nonempty run of
non-newline characters up to the next `'\n'`. -/
def matchCapNl (l : Str) : Option (Str × Str) :=
  match l.dropWhile (fun c => !(c == '\n')) with
  | '\n' :: rem =>
    if (l.takeWhile (fun c => !(c == '\n'))).isEmpty then none
    else some (l.takeWhile (fun c => !(c == '\n')), rem)
  | _ => none

/-- `\s+(.+?)\n`: greedy `\s+` (longest whitespace run first, backtracking
to shorter runs on failure), then the lazy capture. -/
def matchWsCap : Str → Option (Str × Str)
  | [] => none
  | c :: rest =>
    if isPySpace c then
      match matchWsCap rest with
      | some r => some r
      | none => matchCapNl rest
    else none

/-- Attempt of `r'##\s+(.+?)\n'` at the current position. -/
def trySectionHere (l : Str) : Option (Str × Str) :=
  match l with
  | c1 :: c2 :: rest =>
    if c1 == '#' && c2 == '#' then matchWsCap rest else none
  | _ => none

/-- Literal `Model\n` of the data-model pattern. -/
def matchModelNl (l : Str) : Option Str :=
  if "Model\n".data.isPrefixOf l then some (l.drop 6) else none

/-- `\s+Model\n` with the whitespace included in the capture (greedy). -/
def matchWsModelNl : Str → Option (Str × Str)
  | [] => none
  | c :: rest =>
    if isPySpace c then
      match matchWsModelNl rest with
      | some (cap, rem) => some (c :: cap, rem)
      | none =>
        match matchModelNl rest with
        | some rem => some (c :: "Model".data, rem)
        | none => none
    else none

/-- `(.+?\s+Model)\n`: lazy `.+?` (shortest first), then greedy `\s+`,
then the literal `Model` and the closing newline. -/
def matchLazyModel : Str → Option (Str × Str)
  | [] => none
  | c :: rest =>
    if c == '\n' then none
    else
      match matchWsModelNl rest with
      | some (cap2, rem) => some (c :: cap2, rem)
      | none =>
        match matchLazyModel rest with
        | some (cap, rem) => some (c :: cap, rem)
        | none => none

/-- `\s+(.+?\s+Model)\n`: greedy leading whitespace, backtracking into the
lazy capture. -/
def matchModelAfterHashes : Str → Option (Str × Str)
  | [] => none
  | c :: rest =>
    if isPySpace c then
      match matchModelAfterHashes rest with
      | some r => some r
      | none => matchLazyModel rest
    else none

/-- Attempt of `r'###\s+(.+?\s+Model)\n'` at the current position. -/
def tryModelHere (l : Str) : Option (Str × Str) :=
  match l with
  | c1 :: c2 :: c3 :: rest =>
    if c1 == '#' && c2 == '#' && c3 == '#' then matchModelAfterHashes rest
    else none
  | _ => none

/-- Alternation `(GET|POST|PUT|DELETE|PATCH|HEAD|OPTIONS)`: the first
alternative (in source order) matching as a literal at this position. -/
def matchVerb (l : Str) : Option (Str × Str) :=
  httpMethods.findSome? fun m =>
    if m.isPrefixOf l then some (m, l.drop m.length) else none

/-- Attempt of `r'```http\n(GET|POST|PUT|DELETE|PATCH|HEAD|OPTIONS)'` at the
current position (the fence literal has 8 characters). -/
def tryEndpointHere (l : Str) : Option (Str × Str) :=
  if "```http\n".data.isPrefixOf l then matchVerb (l.drop 8) else none

/-- Tail of `r'\|\s*\d+\s*\|\s*([A-Z_]+)\s*\|'` after the first pipe.  All
character classes involved are pairwise disjoint, so greedy matching is
deterministic maximal munch. -/
def matchErrAfterPipe (l : Str) : Option (Str × Str) :=
  if ((l.dropWhile isPySpace).takeWhile isPyDigit).isEmpty then none
  else
    match ((l.dropWhile isPySpace).dropWhile isPyDigit).dropWhile isPySpace with
    | '|' :: l3 =>
      if ((l3.dropWhile isPySpace).takeWhile isUpperUnd).isEmpty then none
      else
        match ((l3.dropWhile isPySpace).dropWhile isUpperUnd).dropWhile isPySpace with
        | '|' :: l6 => some ((l3.dropWhile isPySpace).takeWhile isUpperUnd, l6)
        | _ => none
    | _ => none

/-- Attempt of the error-code row pattern at the current position. -/
def tryErrHere (l : Str) : Option (Str × Str) :=
  match l with
  | c :: rest => if c == '|' then matchErrAfterPipe rest else none
  | [] => none

/-! ### Generic left-to-right non-overlapping scanner (`re.findall`) -/

/-- Fuelled scanner: at each position attempt `f`; on success emit the
capture and continue after the match, otherwise advance one character.
Every successful attempt consumes at least one character, so fuel equal to
the length of the text suffices. -/
def scanAux (f : Str → Option (Str × Str)) : Nat → Str → List Str
  | 0, _ => []
  | _ + 1, [] => []
  | n + 1, c :: rest =>
    match f (c :: rest) with
    | some (cap, rem) => cap :: scanAux f n rem
    | none => scanAux f n rest

/-- `re.findall` with the attempt function `f`. -/
def scan (f : Str → Option (Str × Str)) (l : Str) : List Str :=
  scanAux f l.length l

/-! ### `extract_metadata` (source lines 85-114) -/

/-- The Metadata Record shape of `extract_metadata`. -/
structure Metadata where
  sections : List Str
  endpoints_count : Nat
  data_models_count : Nat
  error_codes_count : Nat
deriving DecidableEq, Repr

/-- `re.findall(r'##\s+(.+?)\n', content)` (source lines 95-96). -/
def findSections (content : Str) : List Str := scan trySectionHere content

/-- `re.findall(r'```http\n(GET|...)', content)` (source lines 100-101). -/
def findEndpoints (content : Str) : List Str := scan tryEndpointHere content

/-- `re.findall(r'###\s+(.+?\s+Model)\n', content)` (source lines 105-106). -/
def findModels (content : Str) : List Str := scan tryModelHere content

/-- `re.findall(r'\|\s*\d+\s*\|\s*([A-Z_]+)\s*\|', content)` (lines 110-111). -/
def findErrorCodes (content : Str) : List Str := scan tryErrHere content

/-- `extract_metadata` (source lines 85-114). -/
def extract_metadata (content : Str) : Metadata :=
  { sections := findSections content
    endpoints_count := (findEndpoints content).length
    data_models_count := (findModels content).length
    error_codes_count := (findErrorCodes content).length }

/-! ### Basic lemmas about the scanner infrastructure -/

theorem isPrefixOf_true {l₁ l₂ : Str} :
    l₁.isPrefixOf l₂ = true ↔ l₁ <+: l₂ := List.isPrefixOf_iff_prefix

theorem containsSub_iff {pat l : Str} : containsSub pat l = true ↔ pat <:+: l := by
  induction l with
  | nil => simp [containsSub, List.isEmpty_iff, List.infix_nil]
  | cons c rest ih =>
    simp only [containsSub, Bool.or_eq_true, isPrefixOf_true, ih]
    constructor
    · rintro (h | h)
      · exact h.isInfix
      · exact List.infix_cons h
    · rintro ⟨s, t, h⟩
      match s, h with
      | [], h => exact Or.inl ⟨t, by simpa using h⟩
      | a :: s', h =>
        refine Or.inr ⟨s', t, ?_⟩
        have h' : a :: (s' ++ pat ++ t) = c :: rest := by simpa using h
        exact (List.cons.injEq _ _ _ _ ▸ h').2

/-- A match attempt that, on success, consumes at least one character. -/
def Consuming (f : Str → Option (Str × Str)) : Prop :=
  ∀ l cap rem, f l = some (cap, rem) → rem.length < l.length

theorem matchCapNl_lt {l cap rem : Str} (h : matchCapNl l = some (cap, rem)) :
    rem.length < l.length := by
  unfold matchCapNl at h
  have hsuf := (List.dropWhile_suffix (l := l) (fun c => !(c == '\n'))).length_le
  split at h
  next rem' heq =>
    split at h
    · simp at h
    · simp only [Option.some.injEq, Prod.mk.injEq] at h
      obtain ⟨-, rfl⟩ := h
      rw [heq] at hsuf
      simp only [List.length_cons] at hsuf
      omega
  next => simp at h

theorem matchWsCap_lt {l cap rem : Str} (h : matchWsCap l = some (cap, rem)) :
    rem.length < l.length := by
  induction l generalizing cap rem with
  | nil => simp [matchWsCap] at h
  | cons c rest ih =>
    unfold matchWsCap at h
    split at h
    · split at h
      · rename_i heq
        rw [h] at heq
        have := ih heq
        simp only [List.length_cons]
        omega
      · have := matchCapNl_lt h
        simp only [List.length_cons]
        omega
    · simp at h

theorem consuming_trySectionHere : Consuming trySectionHere := by
  intro l cap rem h
  unfold trySectionHere at h
  split at h
  next c1 c2 rest =>
    split at h
    · have := matchWsCap_lt h
      simp only [List.length_cons]
      omega
    · simp at h
  next => simp at h

theorem matchModelNl_lt {l rem : Str} (h : matchModelNl l = some rem) :
    rem.length < l.length := by
  unfold matchModelNl at h
  split at h
  · next hpre =>
    have hle := ( List.isPrefixOf_iff_prefix.mp hpre).length_le
    simp only [Option.some.injEq] at h
    subst h
    simp only [List.length_drop]
    simp at hle
    omega
  · simp at h

theorem matchWsModelNl_lt {l cap rem : Str} (h : matchWsModelNl l = some (cap, rem)) :
    rem.length < l.length := by
  induction l generalizing cap rem with
  | nil => simp [matchWsModelNl] at h
  | cons c rest ih =>
    unfold matchWsModelNl at h
    split at h
    · split at h
      · rename_i heq
        simp only [Option.some.injEq, Prod.mk.injEq] at h
        obtain ⟨-, rfl⟩ := h
        have := ih heq
        simp only [List.length_cons]
        omega
      · split at h
        · rename_i heq
          simp only [Option.some.injEq, Prod.mk.injEq] at h
          obtain ⟨-, rfl⟩ := h
          have := matchModelNl_lt heq
          simp only [List.length_cons]
          omega
        · simp at h
    · simp at h

theorem matchLazyModel_lt {l cap rem : Str} (h : matchLazyModel l = some (cap, rem)) :
    rem.length < l.length := by
  induction l generalizing cap rem with
  | nil => simp [matchLazyModel] at h
  | cons c rest ih =>
    unfold matchLazyModel at h
    split at h
    · simp at h
    · split at h
      · rename_i heq
        simp only [Option.some.injEq, Prod.mk.injEq] at h
        obtain ⟨-, rfl⟩ := h
        have := matchWsModelNl_lt heq
        simp only [List.length_cons]
        omega
      · split at h
        · rename_i heq
          simp only [Option.some.injEq, Prod.mk.injEq] at h
          obtain ⟨-, rfl⟩ := h
          have := ih heq
          simp only [List.length_cons]
          omega
        · simp at h

theorem matchModelAfterHashes_lt {l cap rem : Str}
    (h : matchModelAfterHashes l = some (cap, rem)) : rem.length < l.length := by
  induction l generalizing cap rem with
  | nil => simp [matchModelAfterHashes] at h
  | cons c rest ih =>
    unfold matchModelAfterHashes at h
    split at h
    · split at h
      · rename_i heq
        rw [h] at heq
        have := ih heq
        simp only [List.length_cons]
        omega
      · have := matchLazyModel_lt h
        simp only [List.length_cons]
        omega
    · simp at h

theorem consuming_tryModelHere : Consuming tryModelHere := by
  intro l cap rem h
  unfold tryModelHere at h
  split at h
  next c1 c2 c3 rest =>
    split at h
    · have := matchModelAfterHashes_lt h
      simp only [List.length_cons]
      omega
    · simp at h
  next => simp at h

theorem httpMethods_ne_nil : ∀ m ∈ httpMethods, m ≠ [] := by decide

theorem matchVerb_lt {l m rem : Str} (h : matchVerb l = some (m, rem)) :
    rem.length < l.length := by
  unfold matchVerb at h
  obtain ⟨v, hv, hfv⟩ := List.exists_of_findSome?_eq_some h
  split at hfv
  · next hpre =>
    simp only [Option.some.injEq, Prod.mk.injEq] at hfv
    obtain ⟨rfl, rfl⟩ := hfv
    have hle := ( List.isPrefixOf_iff_prefix.mp hpre).length_le
    have hne : v ≠ [] := httpMethods_ne_nil v hv
    have hpos : 0 < v.length := List.length_pos.mpr hne
    simp only [List.length_drop]
    omega
  · simp at hfv

theorem consuming_tryEndpointHere : Consuming tryEndpointHere := by
  intro l cap rem h
  unfold tryEndpointHere at h
  split at h
  · next hpre =>
    have hle := ( List.isPrefixOf_iff_prefix.mp hpre).length_le
    have := matchVerb_lt h
    simp only [List.length_drop] at this
    simp only [String.data] at hle
    omega
  · simp at h

theorem matchErrAfterPipe_lt {l cap rem : Str}
    (h : matchErrAfterPipe l = some (cap, rem)) : rem.length < l.length := by
  unfold matchErrAfterPipe at h
  split at h
  · simp at h
  · split at h
    next l3 heq3 =>
      have h13 : l3.length < (l.dropWhile isPySpace).length := by
        have hs1 := (List.dropWhile_suffix (l := l.dropWhile isPySpace) isPyDigit)
        have hs2 := (List.dropWhile_suffix
          (l := (l.dropWhile isPySpace).dropWhile isPyDigit) isPySpace)
        have := (hs2.trans hs1).length_le
        rw [heq3] at this
        simp only [List.length_cons] at this
        omega
      split at h
      · simp at h
      · split at h
        next l6 heq6 =>
          simp only [Option.some.injEq, Prod.mk.injEq] at h
          obtain ⟨-, rfl⟩ := h
          have h46 : l6.length < l3.length := by
            have hs4 := (List.dropWhile_suffix (l := l3) isPySpace)
            have hs5 := (List.dropWhile_suffix
              (l := l3.dropWhile isPySpace) isUpperUnd)
            have hs6 := (List.dropWhile_suffix
              (l := (l3.dropWhile isPySpace).dropWhile isUpperUnd) isPySpace)
            have := ((hs6.trans hs5).trans hs4).length_le
            rw [heq6] at this
            simp only [List.length_cons] at this
            omega
          have hsl := (List.dropWhile_suffix (l := l) isPySpace).length_le
          omega
        next => simp at h
    next => simp at h

theorem consuming_tryErrHere : Consuming tryErrHere := by
  intro l cap rem h
  unfold tryErrHere at h
  split at h
  next c rest =>
    split at h
    · have := matchErrAfterPipe_lt h
      simp only [List.length_cons]
      omega
    · simp at h
  next => simp at h

theorem scanAux_congr {f : Str → Option (Str × Str)} (hf : Consuming f) :
    ∀ n m (l : Str), l.length ≤ n → l.length ≤ m → scanAux f n l = scanAux f m l := by
  intro n
  induction n with
  | zero =>
    intro m l hn _
    have : l = [] := List.length_eq_zero.mp (Nat.le_zero.mp hn)
    subst this
    cases m <;> simp [scanAux]
  | succ n ih =>
    intro m l hn hm
    match l, m with
    | [], m => cases m <;> simp [scanAux]
    | c :: rest, 0 => simp at hm
    | c :: rest, m + 1 =>
      simp only [List.length_cons] at hn hm
      cases hfc : f (c :: rest) with
      | some p =>
        obtain ⟨cap, rem⟩ := p
        have hlt := hf _ _ _ hfc
        simp only [List.length_cons] at hlt
        simp only [scanAux, hfc]
        rw [ih m rem (by omega) (by omega)]
      | none =>
        simp only [scanAux, hfc]
        rw [ih m rest (by omega) (by omega)]

theorem scan_nil {f : Str → Option (Str × Str)} : scan f [] = [] := rfl

theorem scan_cons_some {f : Str → Option (Str × Str)} (hf : Consuming f)
    {c : Char} {rest cap rem : Str} (h : f (c :: rest) = some (cap, rem)) :
    scan f (c :: rest) = cap :: scan f rem := by
  have hlt := hf _ _ _ h
  simp only [List.length_cons] at hlt
  simp only [scan, List.length_cons, scanAux, h]
  congr 1
  exact scanAux_congr hf rest.length rem.length rem (by omega) (le_refl _)

theorem scan_cons_none {f : Str → Option (Str × Str)}
    {c : Char} {rest : Str} (h : f (c :: rest) = none) :
    scan f (c :: rest) = scan f rest := by
  simp only [scan, List.length_cons, scanAux, h]

/-! ### `generate_markdown_docs` (source lines 116-122)

The wall-clock timestamp `datetime.now().strftime(...)` is modelled as an
explicit parameter, as is the `self.template_path` attribute. -/

/-- The header block of `generate_markdown_docs` (source line 120). -/
def mdHeader (timestamp templatePath : Str) : Str :=
  "---\n# Generated: ".data ++ timestamp ++ "\n# Source: ".data ++ templatePath
    ++ "\n# Version: 1.0.0\n---\n\n".data

/-- `generate_markdown_docs` (source lines 116-122): prepend the header. -/
def generate_markdown_docs (timestamp templatePath content : Str) : Str :=
  mdHeader timestamp templatePath ++ content

/-! ### `generate_openapi_spec` (source lines 186-243)

The constructed `openapi_spec` dict literal (lines 189-227), modelled
field by field.  The `content` argument is never consulted. -/

structure OAContact where
  name : Str
  email : Str
deriving DecidableEq, Repr

structure OAInfo where
  title : Str
  description : Str
  version : Str
  contact : OAContact
deriving DecidableEq, Repr

structure OAServer where
  url : Str
  description : Str
deriving DecidableEq, Repr

structure OAApiKeyScheme where
  schemeType : Str
  inLocation : Str
  name : Str
deriving DecidableEq, Repr

structure OAClientCredentialsFlow where
  tokenUrl : Str
  scopes : List (Str × Str)
deriving DecidableEq, Repr

structure OAOAuth2Scheme where
  schemeType : Str
  clientCredentials : OAClientCredentialsFlow
deriving DecidableEq, Repr

structure OASecuritySchemes where
  apiKeyAuth : OAApiKeyScheme
  oauth2 : OAOAuth2Scheme
deriving DecidableEq, Repr

structure OpenApiSpec where
  openapi : Str
  info : OAInfo
  servers : List OAServer
  securitySchemes : OASecuritySchemes
deriving DecidableEq, Repr

/-- The `openapi_spec` object literal built by `generate_openapi_spec`
(source lines 189-227); the template content is ignored. -/
def generate_openapi_spec (_content : Str) : OpenApiSpec :=
  { openapi := "3.0.0".data
    info :=
      { title := "Agriculture Monitoring System API".data
        description :=
          "Comprehensive API for IoT-based precision farming operations".data
        version := "1.0.0".data
        contact :=
          { name := "API Support".data
            email := "support@agriculture-monitoring.example.com".data } }
    servers :=
      [{ url := "https://api.agriculture-monitoring.example.com/v1".data
         description := "Production server".data }]
    securitySchemes :=
      { apiKeyAuth :=
          { schemeType := "apiKey".data
            inLocation := "header".data
            name := "Authorization".data }
        oauth2 :=
          { schemeType := "oauth2".data
            clientCredentials :=
              { tokenUrl :=
                  "https://api.agriculture-monitoring.example.com/oauth/token".data
                scopes :=
                  [("read".data, "Read access".data),
                   ("write".data, "Write access".data)] } } } }

/-! ### `load_template` (source lines 38-46) and the `generate` driver
(source lines 254-337)

The file system is modelled as a partial map from paths to contents; the
external pandoc invocations and the OpenAPI serialization step are modelled
as injected outcomes (`Except` values whose error carries the Python
exception message `str(e)`).  The driver records every file write it
performs in a `writes` list. -/

/-- `load_template` (source lines 38-46): the raw read, with
`FileNotFoundError` mapped to the exception of line 44. -/
def load_template (fs : Str → Option Str) (templatePath : Str) : Except Str Str :=
  match fs templatePath with
  | some content => Except.ok content
  | none => Except.error ("Template file not found: ".data ++ templatePath)

/-- Output formats of the `--format` flag. -/
inductive Fmt where
  | markdown
  | html
  | pdf
deriving DecidableEq, Repr

/-- The `self.report_data` dict (source lines 26-32), minus the parts the
spec places out of scope; `success` is absent until line 327 sets it. -/
structure ReportData where
  generation_date : Str
  files_generated : List Str
  validation_errors : List Str
  warnings : List Str
  metrics : Option Metadata
  success : Option Bool
deriving DecidableEq, Repr

/-- `report_data` as initialised in `__init__` (source lines 26-32). -/
def initReport (generationDate : Str) : ReportData :=
  { generation_date := generationDate
    files_generated := []
    validation_errors := []
    warnings := []
    metrics := none
    success := none }

def mdPath (outputDir : Str) : Str := outputDir ++ "/agriculture-api.md".data

def htmlPath (outputDir : Str) : Str := outputDir ++ "/agriculture-api.html".data

def pdfPath (outputDir : Str) : Str := outputDir ++ "/agriculture-api.pdf".data

def yamlPath (outputDir : Str) : Str := outputDir ++ "/openapi.yaml".data

def jsonPath (outputDir : Str) : Str := outputDir ++ "/openapi.json".data

def reportPath (reportStamp : Str) : Str :=
  "reports/docs-generation-".data ++ reportStamp ++ ".json".data

/-- `generate_html_docs` (source lines 124-153): on converter success the
HTML path is returned, on any exception the failure is recorded as a
warning and the empty (falsy) string is returned.  The first component is
the produced path, the second the warnings to append. -/
def generate_html_docs (outputDir : Str) (conv : Except Str Unit) :
    Str × List Str :=
  match conv with
  | Except.ok _ => (htmlPath outputDir, [])
  | Except.error e => ([], ["HTML generation failed: ".data ++ e])

/-- `generate_pdf_docs` (source lines 155-184), analogous. -/
def generate_pdf_docs (outputDir : Str) (conv : Except Str Unit) :
    Str × List Str :=
  match conv with
  | Except.ok _ => (pdfPath outputDir, [])
  | Except.error e => ([], ["PDF generation failed: ".data ++ e])

/-- Result of one `generate` run: the boolean returned by `generate`, the
final `report_data`, and the paths of the output files actually written. -/
structure RunResult where
  success : Bool
  report : ReportData
  writes : List Str
deriving DecidableEq, Repr

/-- The `generate` driver (source lines 254-337).  `tpl` is the outcome of
`load_template`; `htmlConv`/`pdfConv` are the outcomes of the two pandoc
invocations; `oaWrite` is the outcome of the OpenAPI serialization (its
exceptions are caught at lines 241-243); `generationDate` and
`reportStamp` model the two `datetime.now()` readings. -/
def generate (tpl : Except Str Str) (formats : List Fmt)
    (htmlConv pdfConv : Except Str Unit) (oaWrite : Except Str Unit)
    (outputDir generationDate reportStamp : Str) : RunResult :=
  match tpl with
  | Except.error _ => ⟨false, initReport generationDate, []⟩
  | Except.ok content =>
    let verrs := validate_openapi_compliance content
    if verrs = [] then
      let meta := extract_metadata content
      let mdFiles : List Str :=
        if Fmt.markdown ∈ formats then [mdPath outputDir] else []
      let htmlStep : Str × List Str :=
        if Fmt.html ∈ formats then generate_html_docs outputDir htmlConv
        else ([], [])
      let htmlFiles : List Str := if htmlStep.1 = [] then [] else [htmlStep.1]
      let pdfStep : Str × List Str :=
        if Fmt.pdf ∈ formats then generate_pdf_docs outputDir pdfConv
        else ([], [])
      let pdfFiles : List Str := if pdfStep.1 = [] then [] else [pdfStep.1]
      let oaFiles : List Str :=
        match oaWrite with
        | Except.ok _ => [yamlPath outputDir]
        | Except.error _ => []
      let oaWrites : List Str :=
        match oaWrite with
        | Except.ok _ => [yamlPath outputDir, jsonPath outputDir]
        | Except.error _ => []
      let oaWarn : List Str :=
        match oaWrite with
        | Except.ok _ => []
        | Except.error e => ["OpenAPI spec generation failed: ".data ++ e]
      let files := mdFiles ++ htmlFiles ++ pdfFiles ++ oaFiles
      ⟨true,
        { generation_date := generationDate
          files_generated := files
          validation_errors := []
          warnings := htmlStep.2 ++ pdfStep.2 ++ oaWarn
          metrics := some meta
          success := some true },
        mdFiles ++ htmlFiles ++ pdfFiles ++ oaWrites ++ [reportPath reportStamp]⟩
    else
      ⟨false,
        { initReport generationDate with validation_errors := verrs }, []⟩

/-- Exit code of `main` in generation mode (source line 386). -/
def generateExitCode (r : RunResult) : Nat := if r.success then 0 else 1

/-! ### Claims -/

/-- C5: `extract_metadata` is a deterministic pure function of the text:
two applications to the same text yield identical Metadata Records (side
effects do not exist in the model because the source function only reads
its argument and builds a fresh dict). -/
theorem extract_metadata_deterministic (t₁ t₂ : Str) (h : t₁ = t₂) :
    extract_metadata t₁ = extract_metadata t₂ := by rw [h]

theorem extract_metadata_deterministic_witness :
    "## Crops\n".data = "## Crops\n".data ∧
      extract_metadata "## Crops\n".data = extract_metadata "## Crops\n".data :=
  ⟨rfl, extract_metadata_deterministic "## Crops\n".data "## Crops\n".data rfl⟩

/-- C6: the OpenAPI spec object built by `generate_openapi_spec` is
independent of the input text — any two inputs yield identical spec
objects — and it carries the fixed literal data (witnessed here by the
hard-coded version field). -/
theorem generate_openapi_spec_const (t₁ t₂ : Str) :
    generate_openapi_spec t₁ = generate_openapi_spec t₂ ∧
      (generate_openapi_spec t₁).info.version = "1.0.0".data :=
  ⟨rfl, rfl⟩

/-- C7: `generate_markdown_docs` returns the fixed-format header block
(which contains the formatted timestamp, the source path and the fixed
version string `1.0.0`) concatenated with the input text, leaving the
input text unmodified as a suffix of the result. -/
theorem generate_markdown_docs_header (timestamp templatePath content : Str) :
    generate_markdown_docs timestamp templatePath content
        = mdHeader timestamp templatePath ++ content ∧
      content <:+ generate_markdown_docs timestamp templatePath content ∧
      "1.0.0".data <:+: mdHeader timestamp templatePath ∧
      templatePath <:+: mdHeader timestamp templatePath ∧
      timestamp <:+: mdHeader timestamp templatePath := by
  refine ⟨rfl, ⟨mdHeader timestamp templatePath, rfl⟩, ?_, ?_, ?_⟩
  · refine ⟨"---\n# Generated: ".data ++ timestamp ++ "\n# Source: ".data
      ++ templatePath ++ "\n# Version: ".data, "\n---\n\n".data, ?_⟩
    simp only [mdHeader, List.append_assoc]
    congr 4
  · exact ⟨"---\n# Generated: ".data ++ timestamp ++ "\n# Source: ".data,
      "\n# Version: 1.0.0\n---\n\n".data, by simp [mdHeader, List.append_assoc]⟩
  · exact ⟨"---\n# Generated: ".data,
      "\n# Source: ".data ++ templatePath ++ "\n# Version: 1.0.0\n---\n\n".data,
      by simp [mdHeader, List.append_assoc]⟩

/-! ### Helper lemmas for counting violation messages -/

theorem nodup_requiredSections : requiredSections.Nodup := by decide

theorem count_map_missing (l : List Str) (s : Str) :
    ((l.map missingSectionMsg).count (missingSectionMsg s)) = l.count s := by
  induction l with
  | nil => rfl
  | cons a l ih =>
    simp only [List.map_cons, List.count_cons, ih]
    congr 1

theorem count_one_of_nodup_mem {l : List Str} {a : Str} (hn : l.Nodup) (ha : a ∈ l) :
    l.count a = 1 := by
  induction l with
  | nil => simp at ha
  | cons b l ih =>
    rw [List.count_cons]
    rcases List.mem_cons.mp ha with rfl | hmem
    · have hnm : a ∉ l := (List.nodup_cons.mp hn).1
      rw [List.count_eq_zero.mpr hnm]
      simp
    · have hbne : b ≠ a := by rintro rfl; exact (List.nodup_cons.mp hn).1 hmem
      rw [ih (List.nodup_cons.mp hn).2 hmem]
      simp [beq_false_of_ne hbne]

/-- C1: for every text, the validator emits the missing-section messages in
the order of the fixed required-section list, and for each required
section whose header is absent the violation list contains exactly one
corresponding message. -/
theorem validate_missing_sections (content : Str) :
    ((validate_openapi_compliance content).filter
        fun e => "Missing required section: ".data.isPrefixOf e)
      = ((requiredSections.filter
            fun s => !containsSub (sectionHeader s) content).map missingSectionMsg)
    ∧ ∀ s ∈ requiredSections, containsSub (sectionHeader s) content = false →
        (validate_openapi_compliance content).count (missingSectionMsg s) = 1 := by
  constructor
  · unfold validate_openapi_compliance
    rw [List.filter_append, List.filter_append]
    have hmap : ((requiredSections.filter
          fun s => !containsSub (sectionHeader s) content).map missingSectionMsg).filter
          (fun e => "Missing required section: ".data.isPrefixOf e)
        = ((requiredSections.filter
            fun s => !containsSub (sectionHeader s) content).map missingSectionMsg) := by
      refine List.filter_eq_self.mpr fun a ha => ?_
      obtain ⟨s, -, rfl⟩ := List.mem_map.mp ha
      exact isPrefixOf_true.mpr (List.prefix_append _ _)
    have hhttp : (if methodFound content then ([] : List Str) else [noHttpMsg]).filter
        (fun e => "Missing required section: ".data.isPrefixOf e) = [] := by
      split <;> simp [show ("Missing required section: ".data.isPrefixOf noHttpMsg)
        = false from rfl]
    have hjson : (if containsSub "```json".data content then ([] : List Str)
        else [noJsonMsg]).filter
        (fun e => "Missing required section: ".data.isPrefixOf e) = [] := by
      split <;> simp [show ("Missing required section: ".data.isPrefixOf noJsonMsg)
        = false from rfl]
    rw [hmap, hhttp, hjson, List.append_nil, List.append_nil]
  · intro s hs hmiss
    unfold validate_openapi_compliance
    rw [List.count_append, List.count_append]
    have h1 : ((requiredSections.filter
          fun s' => !containsSub (sectionHeader s') content).map missingSectionMsg).count
          (missingSectionMsg s) = 1 := by
      rw [count_map_missing]
      exact count_one_of_nodup_mem (nodup_requiredSections.filter _)
        (List.mem_filter.mpr ⟨hs, by simp [hmiss]⟩)
    have h2 : (if methodFound content then ([] : List Str) else [noHttpMsg]).count
        (missingSectionMsg s) = 0 := by
      split
      · rfl
      · simp [List.count_cons, show (noHttpMsg == missingSectionMsg s) = false from rfl]
    have h3 : (if containsSub "```json".data content then ([] : List Str)
        else [noJsonMsg]).count (missingSectionMsg s) = 0 := by
      split
      · rfl
      · simp [List.count_cons, show (noJsonMsg == missingSectionMsg s) = false from rfl]
    omega

theorem validate_missing_sections_witness :
    containsSub (sectionHeader "Endpoints".data) [] = false ∧
      (validate_openapi_compliance []).count
        (missingSectionMsg "Endpoints".data) = 1 :=
  ⟨rfl, (validate_missing_sections []).2 "Endpoints".data (by decide) rfl⟩

/-- C2: a text containing all six required section headers, at least one
fenced http block whose first line starts with a recognized HTTP verb
(followed by a space, as in the validator's pattern), and at least one
fenced json block produces an empty violation list. -/
theorem validate_compliant_empty (content : Str)
    (hsec : ∀ s ∈ requiredSections, containsSub (sectionHeader s) content = true)
    (hhttp : ∃ m ∈ httpMethods, containsSub (methodPattern m) content = true)
    (hjson : containsSub "```json".data content = true) :
    validate_openapi_compliance content = [] := by
  unfold validate_openapi_compliance
  have h1 : (requiredSections.filter
      fun s => !containsSub (sectionHeader s) content) = [] :=
    List.filter_eq_nil_iff.mpr fun s hs => by simp [hsec s hs]
  have h2 : methodFound content = true := List.any_eq_true.mpr hhttp
  rw [h1, h2]
  simp [hjson]

/-- A compliant template used as concrete witness input. -/
def compliantDemo : Str :=
  ("## System Overview\n## Authentication Methods\n## Endpoints\n"
    ++ "## Data Models\n## Error Handling\n## Rate Limiting\n"
    ++ "```http\nGET /fields HTTP/1.1\n```\n```json\nnull\n```\n").data

theorem validate_compliant_empty_witness :
    (∀ s ∈ requiredSections, containsSub (sectionHeader s) compliantDemo = true) ∧
      validate_openapi_compliance compliantDemo = [] :=
  ⟨by decide, validate_compliant_empty compliantDemo (by decide) (by decide) (by decide)⟩

/-! ### C10: the validator's HTTP pattern is stronger than the extractor's -/

theorem infix_cons_decomp {l : Str} {c : Char} {t : Str} (h : l <:+: c :: t) :
    l <+: c :: t ∨ l <:+: t := by
  obtain ⟨s, u, hs⟩ := h
  match s, hs with
  | [], hs => exact Or.inl ⟨u, by simpa using hs⟩
  | a :: s', hs =>
    refine Or.inr ⟨s', u, ?_⟩
    have h' : a :: (s' ++ l ++ u) = c :: t := by simpa using hs
    exact (List.cons.injEq _ _ _ _ ▸ h').2

theorem findEndpoints_ne_nil :
    ∀ content : Str, ∀ m ∈ httpMethods,
      methodPattern m <:+: content → findEndpoints content ≠ [] := by
  intro content
  induction content with
  | nil =>
    intro m hm hinf
    exfalso
    have hle := hinf.length_le
    have hne : m ≠ [] := httpMethods_ne_nil m hm
    have hpos : 0 < m.length := List.length_pos.mpr hne
    simp [methodPattern] at hle
  | cons c rest ih =>
    intro m hm hinf
    cases hty : tryEndpointHere (c :: rest) with
    | some p =>
      obtain ⟨cap, rem⟩ := p
      rw [findEndpoints, scan_cons_some consuming_tryEndpointHere hty]
      simp
    | none =>
      rw [findEndpoints, scan_cons_none hty]
      rcases infix_cons_decomp hinf with hpre | hinf'
      · exfalso
        obtain ⟨u, hu⟩ := hpre
        have hsplit : methodPattern m ++ u
            = "```http\n".data ++ (m ++ " ".data ++ u) := by
          simp [methodPattern, List.append_assoc]
        have hfence : ("```http\n".data).isPrefixOf (c :: rest) = true := by
          refine isPrefixOf_true.mpr ⟨m ++ " ".data ++ u, ?_⟩
          rw [← hu, hsplit]
        have hdrop : (c :: rest).drop 8 = m ++ " ".data ++ u := by
          rw [← hu, hsplit]
          exact List.drop_left "```http\n".data _
        have hmv : matchVerb ((c :: rest).drop 8) ≠ none := by
          rw [hdrop]
          intro hnone
          have hfm := (List.findSome?_eq_none_iff.mp hnone) m hm
          rw [if_pos (isPrefixOf_true.mpr
            ⟨" ".data ++ u, by simp [List.append_assoc]⟩)] at hfm
          simp at hfm
        unfold tryEndpointHere at hty
        rw [if_pos hfence] at hty
        exact hmv hty
      · exact ih m hm hinf'

/-- C10: whenever the validator does not report the HTTP-method violation,
the extractor finds at least one endpoint: the validator's pattern
(verb followed by a space after an http fence) is stronger than the
extractor's (verb right after an http fence). -/
theorem no_http_violation_endpoints (content : Str)
    (h : noHttpMsg ∉ validate_openapi_compliance content) :
    1 ≤ (extract_metadata content).endpoints_count := by
  have hmf : methodFound content = true := by
    by_contra hn
    apply h
    unfold validate_openapi_compliance
    rw [Bool.eq_false_iff.mpr hn]
    simp
  obtain ⟨m, hm, hpat⟩ := List.any_eq_true.mp hmf
  have hinf : methodPattern m <:+: content := containsSub_iff.mp hpat
  have hne : findEndpoints content ≠ [] := findEndpoints_ne_nil content m hm hinf
  simpa [extract_metadata] using List.length_pos.mpr hne

theorem no_http_violation_endpoints_witness :
    noHttpMsg ∉ validate_openapi_compliance "```http\nGET /a\n```".data ∧
      1 ≤ (extract_metadata "```http\nGET /a\n```".data).endpoints_count :=
  ⟨by decide, no_http_violation_endpoints "```http\nGET /a\n```".data (by decide)⟩

/-- C8: for a missing template path, `load_template` fails with the
template-not-found error, the run reports failure (hence `main` exits with
code 1), and no output files are written or recorded. -/
theorem load_failure_no_outputs (fs : Str → Option Str) (templatePath : Str)
    (hmiss : fs templatePath = none) (formats : List Fmt)
    (htmlConv pdfConv oaWrite : Except Str Unit)
    (outputDir generationDate reportStamp : Str) :
    load_template fs templatePath
        = Except.error ("Template file not found: ".data ++ templatePath)
    ∧ (generate (load_template fs templatePath) formats htmlConv pdfConv oaWrite
        outputDir generationDate reportStamp).success = false
    ∧ generateExitCode (generate (load_template fs templatePath) formats htmlConv
        pdfConv oaWrite outputDir generationDate reportStamp) = 1
    ∧ (generate (load_template fs templatePath) formats htmlConv pdfConv oaWrite
        outputDir generationDate reportStamp).writes = []
    ∧ (generate (load_template fs templatePath) formats htmlConv pdfConv oaWrite
        outputDir generationDate reportStamp).report.files_generated = [] := by
  have hload : load_template fs templatePath
      = Except.error ("Template file not found: ".data ++ templatePath) := by
    unfold load_template
    rw [hmiss]
  refine ⟨hload, ?_, ?_, ?_, ?_⟩ <;> rw [hload] <;> rfl

theorem load_failure_no_outputs_witness :
    (fun _ : Str => (none : Option Str)) "tpl.md".data = none ∧
      (generate (load_template (fun _ => none) "tpl.md".data) [Fmt.markdown]
        (Except.ok ()) (Except.ok ()) (Except.ok ()) "docs/api".data
        "d".data "s".data).writes = [] :=
  ⟨rfl, (load_failure_no_outputs (fun _ => none) "tpl.md".data rfl [Fmt.markdown]
    (Except.ok ()) (Except.ok ()) (Except.ok ()) "docs/api".data
    "d".data "s".data).2.2.2.1⟩

/-- C9: when a pandoc conversion fails, the run still succeeds, the failed
artifact's path is absent from the generated-files list, and the failure
is recorded as a warning in the report (when that format was requested,
i.e. when the converter was actually invoked). -/
theorem conversion_failure_downgraded (content : Str) (formats : List Fmt)
    (hv : validate_openapi_compliance content = [])
    (htmlConv pdfConv oaWrite : Except Str Unit)
    (outputDir generationDate reportStamp : Str) :
    (generate (Except.ok content) formats htmlConv pdfConv oaWrite outputDir
        generationDate reportStamp).success = true
    ∧ (∀ e, htmlConv = Except.error e →
        htmlPath outputDir ∉ (generate (Except.ok content) formats htmlConv pdfConv
            oaWrite outputDir generationDate reportStamp).report.files_generated
        ∧ (Fmt.html ∈ formats → ("HTML generation failed: ".data ++ e) ∈
            (generate (Except.ok content) formats htmlConv pdfConv oaWrite outputDir
              generationDate reportStamp).report.warnings))
    ∧ (∀ e, pdfConv = Except.error e →
        pdfPath outputDir ∉ (generate (Except.ok content) formats htmlConv pdfConv
            oaWrite outputDir generationDate reportStamp).report.files_generated
        ∧ (Fmt.pdf ∈ formats → ("PDF generation failed: ".data ++ e) ∈
            (generate (Except.ok content) formats htmlConv pdfConv oaWrite outputDir
              generationDate reportStamp).report.warnings)) := by
  refine ⟨?_, ?_, ?_⟩
  · simp [generate, hv]
  · rintro e rfl
    constructor
    · simp only [generate, hv, if_pos, generate_html_docs, generate_pdf_docs]
      by_cases hmd : Fmt.markdown ∈ formats <;>
        by_cases hh : Fmt.html ∈ formats <;>
        by_cases hp : Fmt.pdf ∈ formats <;>
        cases pdfConv <;> cases oaWrite <;>
        simp [hmd, hh, hp, htmlPath, mdPath, pdfPath, yamlPath]
    · intro hh
      simp [generate, hv, generate_html_docs, hh]
  · rintro e rfl
    constructor
    · simp only [generate, hv, if_pos, generate_html_docs, generate_pdf_docs]
      by_cases hmd : Fmt.markdown ∈ formats <;>
        by_cases hh : Fmt.html ∈ formats <;>
        by_cases hp : Fmt.pdf ∈ formats <;>
        cases htmlConv <;> cases oaWrite <;>
        simp [hmd, hh, hp, htmlPath, mdPath, pdfPath, yamlPath]
    · intro hp
      simp [generate, hv, generate_pdf_docs, hp]

theorem conversion_failure_downgraded_witness :
    validate_openapi_compliance compliantDemo = [] ∧
      ("HTML generation failed: pandoc missing".data ∈
        (generate (Except.ok compliantDemo) [Fmt.markdown, Fmt.html, Fmt.pdf]
          (Except.error "pandoc missing".data) (Except.error "no xelatex".data)
          (Except.ok ()) "docs/api".data "d".data "s".data).report.warnings)
    ∧ htmlPath "docs/api".data ∉
        (generate (Except.ok compliantDemo) [Fmt.markdown, Fmt.html, Fmt.pdf]
          (Except.error "pandoc missing".data) (Except.error "no xelatex".data)
          (Except.ok ()) "docs/api".data "d".data "s".data).report.files_generated :=
  ⟨by decide,
    (((conversion_failure_downgraded compliantDemo [Fmt.markdown, Fmt.html, Fmt.pdf]
      (by decide) (Except.error "pandoc missing".data)
      (Except.error "no xelatex".data) (Except.ok ()) "docs/api".data
      "d".data "s".data).2.1 "pandoc missing".data rfl).2 (by decide)),
    (((conversion_failure_downgraded compliantDemo [Fmt.markdown, Fmt.html, Fmt.pdf]
      (by decide) (Except.error "pandoc missing".data)
      (Except.error "no xelatex".data) (Except.ok ()) "docs/api".data
      "d".data "s".data).2.1 "pandoc missing".data rfl).1)⟩

/-! ### Spec-side line model (for C3 and C4)

The spec describes sections, models and error rows as properties of
*lines*; these definitions follow the spec's words and are compared with
the regex-based extractor. -/

/-- Modelled from the spec: split a text into its lines at newline
characters (the final, possibly empty, unterminated segment included). -/
def splitLines : Str → List Str
  | [] => [[]]
  | c :: rest =>
    if c = '\n' then [] :: splitLines rest
    else
      match splitLines rest with
      | l :: ls => (c :: l) :: ls
      | [] => [[c]]

/-- Modelled from the spec: a second-level heading line starts with the
markdown header token `## `; its title is the remainder of the line. -/
def lineTitle (L : Str) : Option Str :=
  if ("## ".data).isPrefixOf L then some (L.drop 3) else none

/-- Modelled from the spec: the titles of the second-level heading lines
of the text, in document order, duplicates preserved. -/
def specSectionTitles (t : Str) : List Str :=
  (splitLines t).filterMap lineTitle

theorem splitLines_ne_nil : ∀ t : Str, splitLines t ≠ [] := by
  intro t
  induction t with
  | nil => simp [splitLines]
  | cons c rest ih =>
    unfold splitLines
    split
    · simp
    · split
      · simp
      · simp

theorem splitLines_cons_newline (rest : Str) :
    splitLines ('\n' :: rest) = [] :: splitLines rest := rfl

theorem contains_false_forall {l : Str} {a : Char} (h : l.contains a = false) :
    ∀ x ∈ l, x ≠ a := by
  induction l with
  | nil => simp
  | cons c l ih =>
    rw [List.contains_cons] at h
    rcases Bool.or_eq_false_iff.mp h with ⟨h1, h2⟩
    intro x hx
    rcases List.mem_cons.mp hx with rfl | hmem
    · intro he
      subst he
      simp at h1
    · exact ih h2 x hmem

theorem splitLines_cons_of_ne {c : Char} {t l : Str} {ls : List Str}
    (hc : ¬ c = '\n') (ht : splitLines t = l :: ls) :
    splitLines (c :: t) = (c :: l) :: ls := by
  unfold splitLines
  rw [if_neg hc, ht]

theorem splitLines_append {L rest : Str} (hnl : L.contains '\n' = false) :
    splitLines (L ++ '\n' :: rest) = L :: splitLines rest := by
  induction L with
  | nil => rfl
  | cons c L ih =>
    have hc : ¬ c = '\n' := contains_false_forall hnl c (List.mem_cons_self _ _)
    have hnl' : L.contains '\n' = false := by
      rw [List.contains_cons] at hnl
      exact (Bool.or_eq_false_iff.mp hnl).2
    rw [List.cons_append, splitLines_cons_of_ne hc (ih hnl')]

/-! ### Scanner lemmas for well-formed line sequences -/

theorem takeWhile_append_all {p : Char → Bool} {L l : Str}
    (h : ∀ x ∈ L, p x = true) :
    (L ++ l).takeWhile p = L ++ l.takeWhile p := by
  induction L with
  | nil => rfl
  | cons c L ih =>
    have hc := h c (List.mem_cons_self _ _)
    simp [List.cons_append, List.takeWhile_cons, hc,
      ih fun x hx => h x (List.mem_cons_of_mem _ hx)]

theorem dropWhile_append_all {p : Char → Bool} {L l : Str}
    (h : ∀ x ∈ L, p x = true) :
    (L ++ l).dropWhile p = l.dropWhile p := by
  induction L with
  | nil => rfl
  | cons c L ih =>
    have hc := h c (List.mem_cons_self _ _)
    simp [List.cons_append, List.dropWhile_cons, hc,
      ih fun x hx => h x (List.mem_cons_of_mem _ hx)]

theorem matchCapNl_line {T rest : Str} (hne : T ≠ [])
    (hnl : T.contains '\n' = false) :
    matchCapNl (T ++ '\n' :: rest) = some (T, rest) := by
  have hall : ∀ x ∈ T, (!(x == '\n')) = true := by
    intro x hx
    simp only [Bool.not_eq_true', beq_eq_false_iff_ne]
    exact contains_false_forall hnl x hx
  unfold matchCapNl
  rw [takeWhile_append_all hall, dropWhile_append_all hall]
  have hdw : ('\n' :: rest).dropWhile (fun c => !(c == '\n')) = '\n' :: rest := rfl
  have htw : ('\n' :: rest).takeWhile (fun c => !(c == '\n')) = [] := rfl
  rw [hdw, htw, List.append_nil]
  simp [hne]

theorem contains_append {l₁ l₂ : Str} {a : Char} :
    (l₁ ++ l₂).contains a = (l₁.contains a || l₂.contains a) := by
  induction l₁ with
  | nil => simp
  | cons c l ih =>
    rw [List.cons_append, List.contains_cons, ih, List.contains_cons,
      Bool.or_assoc]

theorem matchWsCap_heading {a : Char} {T' rest : Str}
    (hws : isPySpace a = false) (hnl : (a :: T').contains '\n' = false) :
    matchWsCap (' ' :: a :: (T' ++ '\n' :: rest)) = some (a :: T', rest) := by
  have h1 : matchWsCap (a :: (T' ++ '\n' :: rest)) = none := by
    unfold matchWsCap
    simp [hws]
  have h2 : matchCapNl (a :: (T' ++ '\n' :: rest)) = some (a :: T', rest) := by
    have h := @matchCapNl_line (a :: T') rest (by simp) hnl
    simpa using h
  unfold matchWsCap
  simp only [show isPySpace ' ' = true from rfl, if_true, h1, h2]

theorem scanSections_heading {T rest : Str} (hne : T ≠ [])
    (hnl : T.contains '\n' = false) (hws : isPySpace (T.headD ' ') = false) :
    scan trySectionHere (("## ".data ++ T) ++ '\n' :: rest)
      = T :: scan trySectionHere rest := by
  obtain ⟨a, T', rfl⟩ := List.exists_cons_of_ne_nil hne
  have hws' : isPySpace a = false := by simpa using hws
  have hts : trySectionHere ('#' :: '#' :: ' ' :: a :: (T' ++ '\n' :: rest))
      = some (a :: T', rest) := by
    have h := @matchWsCap_heading a T' rest hws' hnl
    simp [trySectionHere, h]
  have hshape : ("## ".data ++ (a :: T')) ++ '\n' :: rest
      = '#' :: '#' :: ' ' :: a :: (T' ++ '\n' :: rest) := rfl
  rw [hshape, scan_cons_some consuming_trySectionHere hts]

theorem scanSections_skip {L rest : Str} (hHH : containsSub ['#', '#'] L = false)
    (hnl : L.contains '\n' = false) :
    scan trySectionHere (L ++ '\n' :: rest) = scan trySectionHere rest := by
  induction L with
  | nil =>
    have hts : trySectionHere ('\n' :: rest) = none := by
      cases rest <;> rfl
    rw [List.nil_append, scan_cons_none hts]
  | cons c L ih =>
    have hHH' : containsSub ['#', '#'] L = false := by
      simp only [containsSub] at hHH
      exact (Bool.or_eq_false_iff.mp hHH).2
    have hnl' : L.contains '\n' = false := by
      rw [List.contains_cons] at hnl
      exact (Bool.or_eq_false_iff.mp hnl).2
    have hts : trySectionHere (c :: (L ++ '\n' :: rest)) = none := by
      cases L with
      | nil =>
        simp [trySectionHere, show (('\n' : Char) == '#') = false from rfl]
      | cons c2 L' =>
        have hcc : (c == '#' && c2 == '#') = false := by
          cases h1 : c == '#' with
          | false => simp
          | true =>
            cases h2 : c2 == '#' with
            | false => simp
            | true =>
              exfalso
              have hc : c = '#' := by simpa using h1
              have hc2 : c2 = '#' := by simpa using h2
              subst hc
              subst hc2
              simp [containsSub] at hHH
        simp [trySectionHere, hcc]
    rw [List.cons_append, scan_cons_none hts]
    exact ih hHH' hnl'

/-! ### Well-formed line sequences -/

/-- Join a list of (newline-free) lines into a newline-terminated text. -/
def joinLines (ls : List Str) : Str :=
  ls.foldr (fun L acc => L ++ '\n' :: acc) []

/-- A line on which the section regex agrees with a true second-level
heading parse: either the line contains no `##` at all, or it is a
heading `## T` whose title `T` is nonempty, newline-free, does not start
with whitespace, and does not itself contain `##`. -/
def goodLine (L : Str) : Bool :=
  if containsSub ['#', '#'] L then
    ("## ".data).isPrefixOf L && !(L.drop 3).isEmpty
      && !(L.drop 3).contains '\n'
      && !isPySpace ((L.drop 3).headD ' ')
      && !containsSub ['#', '#'] (L.drop 3)
  else !L.contains '\n'

theorem goodLine_no_newline {L : Str} (h : goodLine L = true) :
    L.contains '\n' = false := by
  unfold goodLine at h
  split at h
  · simp only [Bool.and_eq_true, Bool.not_eq_true'] at h
    obtain ⟨⟨⟨⟨hpre, hneB⟩, hnlT⟩, hws⟩, hHHT⟩ := h
    obtain ⟨t, ht⟩ := isPrefixOf_true.mp hpre
    have hdrop : L.drop 3 = t := by
      rw [← ht]
      exact List.drop_left "## ".data t
    rw [hdrop] at hnlT
    rw [← ht, contains_append, hnlT]
    rfl
  · simpa using h

theorem lineTitle_heading {L t : Str} (ht : "## ".data ++ t = L) :
    lineTitle L = some t := by
  unfold lineTitle
  rw [if_pos (isPrefixOf_true.mpr ⟨t, ht⟩), ← ht]
  exact congrArg some (List.drop_left "## ".data t)

theorem lineTitle_none {L : Str} (hHH : containsSub ['#', '#'] L = false) :
    lineTitle L = none := by
  unfold lineTitle
  rw [if_neg]
  intro hpre
  have h2 : ['#', '#'] <+: L :=
    List.IsPrefix.trans ⟨[' '], rfl⟩ (isPrefixOf_true.mp hpre)
  rw [containsSub_iff.mpr h2.isInfix] at hHH
  simp at hHH

theorem scan_joinLines_goodLines :
    ∀ ls : List Str, (∀ L ∈ ls, goodLine L = true) →
      scan trySectionHere (joinLines ls) = ls.filterMap lineTitle := by
  intro ls
  induction ls with
  | nil => intro _; rfl
  | cons L ls ih =>
    intro hg
    have hgL := hg L (List.mem_cons_self _ _)
    have hrec := ih fun L' h' => hg L' (List.mem_cons_of_mem _ h')
    have hjoin : joinLines (L :: ls) = L ++ '\n' :: joinLines ls := rfl
    rw [hjoin, List.filterMap_cons]
    unfold goodLine at hgL
    split at hgL
    · next hHH =>
      simp only [Bool.and_eq_true, Bool.not_eq_true'] at hgL
      obtain ⟨⟨⟨⟨hpre, hneB⟩, hnlT⟩, hws⟩, hHHT⟩ := hgL
      obtain ⟨t, ht⟩ := isPrefixOf_true.mp hpre
      have hdrop : L.drop 3 = t := by
        rw [← ht]
        exact List.drop_left "## ".data t
      rw [hdrop] at hneB hnlT hws
      have hne : t ≠ [] := by
        intro hteq
        rw [hteq] at hneB
        simp at hneB
      rw [lineTitle_heading ht, ← ht,
        scanSections_heading hne hnlT hws, hrec]
    · next hHH =>
      have hHHf : containsSub ['#', '#'] L = false :=
        Bool.eq_false_iff.mpr hHH
      have hnlL : L.contains '\n' = false := by simpa using hgL
      rw [lineTitle_none hHHf, scanSections_skip hHHf hnlL, hrec]

theorem specTitles_joinLines :
    ∀ ls : List Str, (∀ L ∈ ls, L.contains '\n' = false) →
      specSectionTitles (joinLines ls) = ls.filterMap lineTitle := by
  intro ls
  induction ls with
  | nil => intro _; rfl
  | cons L ls ih =>
    intro h
    have h1 := h L (List.mem_cons_self _ _)
    have ih' := ih fun L' h' => h L' (List.mem_cons_of_mem _ h')
    unfold specSectionTitles at ih' ⊢
    have hjoin : joinLines (L :: ls) = L ++ '\n' :: joinLines ls := rfl
    rw [hjoin, splitLines_append h1, List.filterMap_cons, List.filterMap_cons,
      ih']

/-- C3 counterexample: `### Foo\n` contains no second-level heading line,
yet `extract_metadata` reports the section title `Foo` — the pattern
`##\s+` also matches starting inside the `###` marker of deeper headings,
so `sections` is not the list of second-level heading titles. -/
theorem sections_counterexample :
    specSectionTitles "### Foo\n".data = []
      ∧ (extract_metadata "### Foo\n".data).sections = ["Foo".data]
      ∧ (extract_metadata "### Foo\n".data).sections
          ≠ specSectionTitles "### Foo\n".data := by decide

/-- C3 (amended): on texts consisting of newline-terminated lines in which
every occurrence of `##` is the marker of a well-formed second-level
heading line `## T` (title nonempty, free of newlines and of `##`, not
starting with whitespace), the `sections` field equals the titles of the
second-level heading lines, captured verbatim, in document order, with
duplicates preserved. -/
theorem sections_eq_titles_of_goodLines (ls : List Str)
    (hg : ∀ L ∈ ls, goodLine L = true) :
    (extract_metadata (joinLines ls)).sections
      = specSectionTitles (joinLines ls) := by
  have h1 := scan_joinLines_goodLines ls hg
  have h2 := specTitles_joinLines ls fun L hL => goodLine_no_newline (hg L hL)
  show findSections (joinLines ls) = specSectionTitles (joinLines ls)
  rw [findSections, h1, h2]

/-- The lines of a small well-formed document (two headings with a
duplicate, one body line). -/
def demoLines : List Str :=
  ["## Alpha".data, "body text".data, "## Beta".data, "## Alpha".data]

theorem sections_eq_titles_of_goodLines_witness :
    (∀ L ∈ demoLines, goodLine L = true) ∧
      (extract_metadata (joinLines demoLines)).sections
        = specSectionTitles (joinLines demoLines) :=
  ⟨by decide, sections_eq_titles_of_goodLines demoLines (by decide)⟩

/-! ### C4: the standard-template metric contract -/

/-- Modelled from the spec: the number of third-level heading lines whose
title ends with the word `Model`. -/
def specModelHeadingCount (t : Str) : Nat :=
  ((splitLines t).filter fun L =>
    ("### ".data).isPrefixOf L && (" Model".data).isSuffixOf L).length

/-- Modelled from the spec: a well-formed error-code table row — a pipe,
a numeric cell, a pipe, an uppercase-with-underscores token cell, and a
closing pipe, with spaces tolerated around the cells. -/
def specErrorRow (L : Str) : Bool :=
  match L with
  | '|' :: r =>
    match ((r.dropWhile fun c => c == ' ').dropWhile isPyDigit).dropWhile
        (fun c => c == ' ') with
    | '|' :: s =>
      (!((r.dropWhile fun c => c == ' ').takeWhile isPyDigit).isEmpty)
      && (!((s.dropWhile fun c => c == ' ').takeWhile isUpperUnd).isEmpty)
      && (match (((s.dropWhile fun c => c == ' ').dropWhile isUpperUnd).dropWhile
            (fun c => c == ' ')) with
          | '|' :: _ => true
          | _ => false)
    | _ => false
  | _ => false

/-- Modelled from the spec: the number of well-formed error-code table
rows of the text. -/
def specErrorRowCount (t : Str) : Nat :=
  ((splitLines t).filter specErrorRow).length

/-- Modelled from the spec: count the fenced http code blocks whose first
line starts with a recognized HTTP verb. -/
def specHttpFences : List Str → Nat
  | [] => 0
  | L :: rest =>
    (if (L == "```http".data)
        && (match rest with
            | L2 :: _ => httpMethods.any fun m => m.isPrefixOf L2
            | [] => false)
      then 1 else 0) + specHttpFences rest

def specEndpointFenceCount (t : Str) : Nat := specHttpFences (splitLines t)

/-- A template with exactly 3 second-level headings, 2 http endpoint
fences, 1 third-level `X Model` heading and 2 well-formed error-code
table rows. -/
def standardTemplate : Str :=
  ("## Overview\n## Endpoints\n## Errors\n### Crop Model\n"
    ++ "```http\nGET /crops\n```\n```http\nPOST /crops\n```\n"
    ++ "| 400 | BAD_REQUEST | bad |\n| 404 | NOT_FOUND | missing |\n").data

/-- C4 counterexample: the standard template satisfies all four shape
hypotheses (3 second-level headings, 2 endpoint fences, 1 Model heading,
2 error rows), but `extract_metadata` does not report `sections` of
length 3 — the section pattern also captures the `### Crop Model`
heading. -/
theorem metadata_counts_counterexample :
    (specSectionTitles standardTemplate).length = 3
      ∧ specEndpointFenceCount standardTemplate = 2
      ∧ specModelHeadingCount standardTemplate = 1
      ∧ specErrorRowCount standardTemplate = 2
      ∧ (extract_metadata standardTemplate).sections.length ≠ 3 := by decide

/-- C4 (amended): on the standard template with exactly 3 second-level
headings, 2 endpoint fences, 1 Model heading and 2 error rows,
`extract_metadata` reports `endpoints_count` 2, `data_models_count` 1 and
`error_codes_count` 2, but `sections` of length 4: the three second-level
titles plus the captured `Crop Model` title of the third-level heading. -/
theorem metadata_counts_on_standard_template :
    (specSectionTitles standardTemplate).length = 3
      ∧ specEndpointFenceCount standardTemplate = 2
      ∧ specModelHeadingCount standardTemplate = 1
      ∧ specErrorRowCount standardTemplate = 2
      ∧ extract_metadata standardTemplate =
          { sections := ["Overview".data, "Endpoints".data, "Errors".data,
              "Crop Model".data]
            endpoints_count := 2
            data_models_count := 1
            error_codes_count := 2 } := by decide

end AgriDocs
